import Mathlib

/-!
# Trackomatron command-line helpers: hex identifiers and option commands

A shallow embedding of

* `src/cmd/tracko/commands/common.go` (`isHex`, `StripHex`), and
* `src/trader/commands/options.go` (`cmdOptionCreateTx`, `cmdOptionSellTx`, `getOption`),

together with the part of Go's `encoding/hex` that these functions call.

Go strings and byte slices are sequences of bytes; both are embedded as `List UInt8`.
A Go `(value, error)` result is embedded as `Except`, a Go `error` result as
`Option` (`none` is the `nil` error), and a byte slice that may be `nil` as
`Option (List UInt8)` (`none` is the `nil` slice).

Lengths and positions (`len(s)`, `s[:2]`, `s[2:]`) count bytes, as in Go. A
string that begins with `0x` and goes on in hexadecimal digits is ASCII, so on
the strings that `isHex` accepts bytes and characters are the same thing.
-/

namespace Trackomatron

/-- A Go string, or a Go byte slice: a sequence of bytes. -/
abbrev Bytes := List UInt8

/-- The bytes of a string literal of the source text (UTF-8, as Go stores it). -/
def lit (s : String) : Bytes :=
  s.data.flatMap String.utf8EncodeChar

/-! ## `encoding/hex` -/

/-- The errors of `encoding/hex`: `ErrLength` (odd length input) and
`InvalidByteError` (a byte that is not a hexadecimal digit). -/
inductive HexError where
  | ErrLength : HexError
  | InvalidByteError : UInt8 → HexError
deriving DecidableEq, Repr

/-- Go `hex.fromHexChar`: the value of one hexadecimal digit, and whether the
byte was a digit at all. -/
def fromHexChar (c : UInt8) : UInt8 × Bool :=
  if 48 ≤ c ∧ c ≤ 57 then (c - 48, true)            -- '0' <= c && c <= '9'
  else if 97 ≤ c ∧ c ≤ 102 then (c - 97 + 10, true) -- 'a' <= c && c <= 'f'
  else if 65 ≤ c ∧ c ≤ 70 then (c - 65 + 10, true)  -- 'A' <= c && c <= 'F'
  else (0, false)

/-- The loop of Go `hex.Decode`: two digits give one byte, `(a << 4) | b`; the
first byte that is not a digit ends the loop with `InvalidByteError`. The loop
runs `len(src)/2` times, so a trailing single byte is not looked at. -/
def decodeLoop : Bytes → Except HexError Bytes
  | c :: d :: rest =>
    match fromHexChar c with
    | (_, false) => .error (.InvalidByteError c)
    | (a, true) =>
      match fromHexChar d with
      | (_, false) => .error (.InvalidByteError d)
      | (b, true) =>
        match decodeLoop rest with
        | .error e => .error e
        | .ok dst => .ok (((a <<< 4) ||| b) :: dst)
  | _ => .ok []

/-- Go `hex.Decode` on the bytes of `src`: odd length is `ErrLength`, otherwise
the loop decides. -/
def Decode (src : Bytes) : Except HexError Bytes :=
  if src.length % 2 = 1 then .error .ErrLength else decodeLoop src

/-- Go `hex.DecodeString`: `Decode` of the bytes of the string; on an error no
bytes are returned. -/
def DecodeString (s : Bytes) : Except HexError Bytes :=
  match Decode s with
  | .error err => .error err
  | .ok dst => .ok dst

/-! ## `common.go` -/

/-- Go `isHex` of `common.go`:
`len(s) > 2 && s[:2] == "0x"` and `hex.DecodeString(s[2:])` has no error. -/
def isHex (s : Bytes) : Bool :=
  if s.length > 2 ∧ s.take 2 = lit "0x" then
    match DecodeString (s.drop 2) with
    | .error _ => false
    | .ok _ => true
  else false

/-- Go `StripHex` of `common.go`: `s[2:]` if `isHex(s)`, else `s`. -/
def StripHex (s : Bytes) : Bytes :=
  if isHex s then s.drop 2 else s

/-! ## `options.go`

The command functions of `options.go` call into packages outside this
repository: `urfave/cli` (the flag values of a context and its parents),
`basecoin/types` and `trader/options` (coins, the option transactions, their
encoding `TxBytes`, the record parser `ParseData`) and `basecoin/cmd` (`AppTx`,
`Query`, `StripHex`). Their data types are written down as the code uses them;
their functions are the fields of `Env`. `bcmd.StripHex` is the function of the
same name and text as in `common.go`, and is embedded by it.
-/

/-- A Go byte slice that may be the `nil` slice (`none`). -/
abbrev Slice := Option Bytes

/-- Go `types.Coin`, with the two fields `options.go` sets. -/
structure Coin where
  Denom : Bytes
  Amount : Int
deriving DecidableEq, Repr

/-- Go `types.Coins`. -/
abbrev Coins := List Coin

/-- Go `options.CreateOptionTx`. -/
structure CreateOptionTx where
  Expiration : Nat
  Trade : Coins
deriving DecidableEq, Repr

/-- Go `options.SellOptionTx`. -/
structure SellOptionTx where
  Addr : Slice
  NewHolder : Slice
  Price : Coins
deriving DecidableEq, Repr

/-- The transactions handed to `options.TxBytes` by `options.go`. -/
inductive OptionTx where
  | create : CreateOptionTx → OptionTx
  | sell : SellOptionTx → OptionTx
deriving DecidableEq, Repr

/-- The response of `bcmd.Query`, with the one field `getOption` reads. -/
structure ResultQuery where
  Value : Bytes
deriving DecidableEq, Repr

/-- The Go `error` values the embedded functions can return. -/
inductive CmdError (Err : Type) where
  /-- An error passed through from `bcmd.AppTx` or `bcmd.Query`. -/
  | host : Err → CmdError Err
  /-- The text `"Recv address is invalid hex: " + err.Error()`. -/
  | invalidHex : HexError → CmdError Err
  /-- The text `"Option bytes are empty for address: %X "`. -/
  | emptyOption : Bytes → CmdError Err
  /-- The text `"Error reading option %X error: %v"`. -/
  | readOption : Bytes → Err → CmdError Err
deriving DecidableEq, Repr

/-- The functions of the packages outside the repository that `options.go`
calls, over the context type `Ctx` of `urfave/cli`, the errors `Err` of the
host packages and the record type `OptionData` of `trader/options`. -/
structure Env (Ctx Err OptionData : Type) where
  /-- `c.Parent()`. -/
  Parent : Ctx → Ctx
  /-- `options.TxBytes(tx)`. -/
  TxBytes : OptionTx → Bytes
  /-- `bcmd.AppTx(parent, name, data)`: signs and submits the application
  transaction; `none` is the `nil` error. -/
  AppTx : Ctx → Bytes → Bytes → Option Err
  /-- `bcmd.Query(tmAddr, key)`. -/
  Query : Bytes → Bytes → Except Err ResultQuery
  /-- `options.ParseData(bytes)`. -/
  ParseData : Bytes → Except Err OptionData
  /-- `EscrowExpireFlag.Name`, declared in a file of the package that is not
  among the sources. -/
  EscrowExpireFlagName : Bytes
  /-- `c.Uint64(name)`. -/
  Uint64 : Ctx → Bytes → Nat
  /-- `c.String(name)`. -/
  String : Ctx → Bytes → Bytes
  /-- `c.Int(name)`; the conversion `int64(...)` of the result keeps its value. -/
  Int : Ctx → Bytes → Int

/-- Go `OptionName`. -/
def OptionName : Bytes := lit "options"

/-- Go `OptionAddrFlag.Name`. -/
def OptionAddrFlagName : Bytes := lit "option"

/-- Go `OptionSellToFlag.Name`. -/
def OptionSellToFlagName : Bytes := lit "sellto"

/-- Go `OptionTradeAmountFlag.Name`. -/
def OptionTradeAmountFlagName : Bytes := lit "trade"

/-- Go `OptionTradeCoinFlag.Name`. -/
def OptionTradeCoinFlagName : Bytes := lit "trade-coin"

/-- Go `OptionPriceAmountFlag.Name`. -/
def OptionPriceAmountFlagName : Bytes := lit "price"

/-- Go `OptionPriceCoinFlag.Name`. -/
def OptionPriceCoinFlagName : Bytes := lit "price-coin"

section Commands

variable {Ctx Err OptionData : Type}

/-- Go `cmdOptionCreateTx`. -/
def cmdOptionCreateTx (env : Env Ctx Err OptionData) (c : Ctx) : Option (CmdError Err) :=
  let optionAmount := env.Int c OptionTradeAmountFlagName
  let optionCoin := env.String c OptionTradeCoinFlagName
  let expire := env.Uint64 c env.EscrowExpireFlagName
  let parent := env.Parent (env.Parent c)
  let tx : CreateOptionTx :=
    { Expiration := expire
      Trade := [{ Denom := optionCoin, Amount := optionAmount }] }
  let data := env.TxBytes (.create tx)
  (env.AppTx parent OptionName data).map .host

/-- Go `cmdOptionSellTx`. -/
def cmdOptionSellTx (env : Env Ctx Err OptionData) (c : Ctx) : Option (CmdError Err) :=
  let addrHex := env.String c OptionAddrFlagName
  let buyerHex := env.String c OptionSellToFlagName
  let optionAmount := env.Int c OptionPriceAmountFlagName
  let optionCoin := env.String c OptionPriceCoinFlagName
  let parent := env.Parent (env.Parent c)
  -- convert destination address to bytes
  match DecodeString (StripHex addrHex) with
  | .error err => some (.invalidHex err)
  | .ok addr =>
    let buyer : Slice :=
      match DecodeString (StripHex buyerHex) with
      | .error _ => none -- this is optional, we can ignore it
      | .ok b => some b
    let tx : SellOptionTx :=
      { Addr := some addr
        NewHolder := buyer
        Price := [{ Denom := optionCoin, Amount := optionAmount }] }
    let data := env.TxBytes (.sell tx)
    (env.AppTx parent OptionName data).map .host

/-- Go `getOption`; `fmt.Sprintf("%s/", OptionName)` is `OptionName` followed
by `/`. -/
def getOption (env : Env Ctx Err OptionData) (tmAddr : Bytes) (address : Bytes) :
    Except (CmdError Err) OptionData :=
  let pre := OptionName ++ lit "/"
  let key := pre ++ address
  match env.Query tmAddr key with
  | .error err => .error (.host err)
  | .ok response =>
    let optionBytes := response.Value
    if optionBytes.length = 0 then .error (.emptyOption address)
    else
      match env.ParseData optionBytes with
      | .error err => .error (.readOption optionBytes err)
      | .ok opt => .ok opt

end Commands

/-! ## A concrete host, for evaluating the commands -/

/-- The flag values of a command line, as a context value. -/
structure Flags where
  strings : List (Bytes × Bytes)
  ints : List (Bytes × Int)
  uints : List (Bytes × Nat)
deriving DecidableEq, Repr

/-- The value stored for `name` in an association list, or `dflt`. -/
def lookupFlag {α : Type} (xs : List (Bytes × α)) (name : Bytes) (dflt : α) : α :=
  match xs.find? (fun p => p.1 == name) with
  | some p => p.2
  | none => dflt

/-- A host that accepts every submitted transaction and stores one record:
flags that are not given read as the zero value, a transaction is encoded as a
tag byte followed by its amounts and byte strings, and the key `options/` `01`
holds the bytes `07`, which parse to the record `7`. -/
def sampleEnv : Env Flags Bytes Nat where
  Parent := fun c => c
  TxBytes := fun tx =>
    match tx with
    | .create t => 1 :: t.Trade.flatMap (fun coin => UInt8.ofNat coin.Amount.toNat :: coin.Denom)
    | .sell t => 2 :: ((t.Addr.getD []) ++ (t.NewHolder.getD []))
  AppTx := fun _ _ _ => none
  Query := fun _ key =>
    if key = lit "options/" ++ [1] then .ok { Value := [7] }
    else if key = lit "options/" ++ [2] then .ok { Value := [] }
    else if key = lit "options/" ++ [3] then .ok { Value := [9, 9] }
    else .error (lit "no such key")
  ParseData := fun b =>
    match b with
    | [n] => .ok n.toNat
    | _ => .error (lit "malformed record")
  EscrowExpireFlagName := lit "expire"
  Uint64 := fun c name => lookupFlag c.uints name 0
  String := fun c name => lookupFlag c.strings name []
  Int := fun c name => lookupFlag c.ints name 0

/-- A host that refuses every submission, reporting back the application name
and the transaction bytes it was handed. -/
def echoEnv : Env Flags (Bytes × Bytes) Nat where
  Parent := fun c => c
  TxBytes := sampleEnv.TxBytes
  AppTx := fun _ name data => some (name, data)
  Query := fun _ _ => .error ([], [])
  ParseData := fun _ => .error ([], [])
  EscrowExpireFlagName := lit "expire"
  Uint64 := fun c name => lookupFlag c.uints name 0
  String := fun c name => lookupFlag c.strings name []
  Int := fun c name => lookupFlag c.ints name 0

/-- The command line with no flag given: `--trade`, `--price` and `--expire`
read as `0`, the coin flags as their declared value `blank`, the others as the
empty string. -/
def noFlags : Flags :=
  { strings := [(lit "trade-coin", lit "blank"), (lit "price-coin", lit "blank")]
    ints := []
    uints := [] }

/-- The command line `sell --option 0xab --sellto 0xZZ`. -/
def sellFlags : Flags :=
  { strings := [(lit "option", lit "0xab"), (lit "sellto", lit "0xZZ"),
      (lit "price-coin", lit "blank")]
    ints := []
    uints := [] }

/-- Equality of Go results can be decided when it can be for both components. -/
instance instDecidableEqExcept {ε α : Type} [DecidableEq ε] [DecidableEq α] :
    DecidableEq (Except ε α) := fun x y =>
  match x, y with
  | .error a, .error b =>
    if h : a = b then isTrue (by rw [h]) else isFalse (fun hab => h (Except.error.inj hab))
  | .ok a, .ok b =>
    if h : a = b then isTrue (by rw [h]) else isFalse (fun hab => h (Except.ok.inj hab))
  | .error _, .ok _ => isFalse (fun hab => Except.noConfusion hab)
  | .ok _, .error _ => isFalse (fun hab => Except.noConfusion hab)

/-! ## Vocabulary of the specification -/

/-- A hexadecimal digit in the specification's words: one of `0-9`, `a-f`, `A-F`. -/
def isHexDigit (c : UInt8) : Bool :=
  decide (c ∈ lit "0123456789abcdefABCDEF")

/-- What hex decoding accepts, in the specification's words: an even number of
characters, each a hexadecimal digit. -/
def evenHexDigits (t : Bytes) : Bool :=
  decide (t.length % 2 = 0) && t.all isHexDigit

/-- A flag value that is valid hex, in the specification's words: an even
number of hexadecimal digits, either bare or as the non-empty remainder after
the prefix `0x`. -/
def validHexValue (v : Bytes) : Bool :=
  evenHexDigits v ||
    (decide (2 < v.length) && decide (v.take 2 = lit "0x") && evenHexDigits (v.drop 2))

/-- The digits of a flag value: what follows the prefix `0x` if there is one,
else the whole value. -/
def hexDigitsOf (v : Bytes) : Bytes :=
  if v.take 2 = lit "0x" then v.drop 2 else v

/-! ## Facts about `encoding/hex` -/

set_option maxRecDepth 100000 in
/-- Byte by byte: `fromHexChar` reports a digit exactly on `0-9`, `a-f`, `A-F`. -/
theorem fromHexChar_snd_fin :
    ∀ n : Fin 256, (fromHexChar ⟨⟨n⟩⟩).2 = isHexDigit ⟨⟨n⟩⟩ := by
  decide

/-- The success flag of `fromHexChar` is the digit test of the specification. -/
theorem fromHexChar_snd (c : UInt8) : (fromHexChar c).2 = isHexDigit c :=
  fromHexChar_snd_fin c.toBitVec.toFin

/-- On an input of even length the loop of `hex.Decode` succeeds exactly when
every byte is a digit. -/
theorem decodeLoop_isOk (n : Nat) :
    ∀ t : Bytes, t.length = 2 * n → (decodeLoop t).isOk = t.all isHexDigit := by
  induction n with
  | zero =>
    intro t ht
    have : t = [] := List.length_eq_zero.mp (by simpa using ht)
    subst this
    rfl
  | succ k ih =>
    intro t ht
    match t, ht with
    | c :: d :: rest, ht =>
      have hrest : rest.length = 2 * k := by
        simp only [List.length_cons] at ht
        omega
      have hr := ih rest hrest
      have hc := fromHexChar_snd c
      have hd := fromHexChar_snd d
      rw [decodeLoop]
      rcases hfc : fromHexChar c with ⟨a, oka⟩
      rcases hfd : fromHexChar d with ⟨b, okb⟩
      rw [hfc] at hc
      rw [hfd] at hd
      simp only at hc hd
      cases oka <;> cases okb <;>
        cases hl : decodeLoop rest <;>
        simp_all [Except.isOk, Except.toBool]

/-- Go `hex.DecodeString` returns without error exactly on an even number of
hexadecimal digits. -/
theorem DecodeString_isOk (t : Bytes) : (DecodeString t).isOk = evenHexDigits t := by
  unfold DecodeString Decode evenHexDigits
  by_cases h : t.length % 2 = 1
  · have h0 : ¬ t.length % 2 = 0 := by omega
    simp [h, h0, Except.isOk, Except.toBool]
  · have h0 : t.length % 2 = 0 := by omega
    have hall := decodeLoop_isOk (t.length / 2) t (by omega)
    rw [if_neg h, ← hall]
    cases hd : decodeLoop t <;> simp [h0, Except.isOk, Except.toBool]

/-- The test of `isHex` unfolded: length, prefix, and the decoder's verdict. -/
theorem isHex_eq (s : Bytes) :
    isHex s = (decide (2 < s.length) && decide (s.take 2 = lit "0x")
      && evenHexDigits (s.drop 2)) := by
  rw [← DecodeString_isOk]
  unfold isHex
  by_cases h : s.length > 2 ∧ s.take 2 = lit "0x"
  · obtain ⟨h1, h2⟩ := h
    cases hd : DecodeString (s.drop 2) <;>
      simp [h1, h2, hd, Except.isOk, Except.toBool]
  · rw [if_neg h]
    rcases not_and_or.mp h with h1 | h2
    · simp [h1]
    · simp [h2]

/-- A result of the decoder has no error exactly when it carries bytes. -/
theorem isOk_iff_exists {ε α : Type} (r : Except ε α) :
    r.isOk = true ↔ ∃ b, r = .ok b := by
  cases r <;> simp [Except.isOk, Except.toBool]

/-- The byte `x` is not a hexadecimal digit, so a value of digits does not
begin with `0x`. -/
theorem take_two_ne_of_digits (v : Bytes) (h : v.all isHexDigit = true) :
    v.take 2 ≠ lit "0x" := by
  intro hp
  match v, h, hp with
  | [], _, hp => exact absurd hp (by decide)
  | [a], _, hp =>
    have hlen : (1 : Nat) = 2 := congrArg List.length hp
    exact absurd hlen (by decide)
  | a :: b :: rest, h, hp =>
    have hb : b = 120 := by
      have : [a, b] = [48, 120] := hp
      simp at this
      exact this.2
    subst hb
    have hx : isHexDigit 120 = true := by
      simp only [List.all_cons, Bool.and_eq_true] at h
      exact h.2.1
    exact absurd hx (by decide)

/-- What `StripHex` leaves is decoded without error exactly for a valid hex value. -/
theorem DecodeString_StripHex_isOk (v : Bytes) :
    (DecodeString (StripHex v)).isOk = validHexValue v := by
  unfold StripHex validHexValue
  rw [← isHex_eq]
  cases hh : isHex v
  · simp [DecodeString_isOk]
  · have h2 : evenHexDigits (v.drop 2) = true := by
      rw [isHex_eq] at hh
      simp only [Bool.and_eq_true] at hh
      exact hh.2
    simp [DecodeString_isOk, h2]

/-- For a valid hex value `StripHex` returns its digits. -/
theorem StripHex_of_valid (v : Bytes) (h : validHexValue v = true) :
    StripHex v = hexDigitsOf v := by
  unfold StripHex hexDigitsOf
  cases hh : isHex v
  · have hv : evenHexDigits v = true := by
      unfold validHexValue at h
      rw [← isHex_eq, hh] at h
      simpa using h
    have hall : v.all isHexDigit = true := by
      unfold evenHexDigits at hv
      simp only [Bool.and_eq_true] at hv
      exact hv.2
    simp [take_two_ne_of_digits v hall]
  · have hp : v.take 2 = lit "0x" := by
      rw [isHex_eq] at hh
      simp only [Bool.and_eq_true, decide_eq_true_eq] at hh
      exact hh.1.2
    simp [hp]

/-! ## `isHex` and `StripHex` -/

/-- C1: for every string `s`, `isHex s` is true if and only if `s` is longer
than 2, its first two characters are exactly `0x`, and `s[2:]` is accepted by
hex decoding; hex decoding accepts exactly an even number of characters, each
in `0-9`, `a-f` or `A-F`; in particular `isHex ""` and `isHex "0x"` are false. -/
theorem isHex_iff (s : Bytes) :
    (isHex s = true ↔
      2 < s.length ∧ s.take 2 = lit "0x" ∧ ∃ b, DecodeString (s.drop 2) = .ok b)
    ∧ ((∃ b, DecodeString (s.drop 2) = .ok b) ↔
      (s.drop 2).length % 2 = 0 ∧ ∀ c ∈ s.drop 2, c ∈ lit "0123456789abcdefABCDEF")
    ∧ isHex (lit "") = false
    ∧ isHex (lit "0x") = false := by
  have hdec : (∃ b, DecodeString (s.drop 2) = .ok b) ↔ evenHexDigits (s.drop 2) = true := by
    rw [← isOk_iff_exists, DecodeString_isOk]
  refine ⟨?_, ?_, by decide, by decide⟩
  · rw [hdec, isHex_eq]
    simp only [Bool.and_eq_true, decide_eq_true_eq]
    tauto
  · rw [hdec]
    simp [evenHexDigits, isHexDigit]

/-- C2, as the code has it: for every non-empty string `h` of even length made
only of hexadecimal digits, `isHex ("0x" ++ h)` is true. -/
theorem isHex_even_digits (h : Bytes) (hne : h ≠ []) (heven : h.length % 2 = 0)
    (hdig : ∀ c ∈ h, isHexDigit c = true) : isHex (lit "0x" ++ h) = true := by
  have hlen : 0 < h.length := List.length_pos.mpr hne
  have h0x : lit "0x" = [48, 120] := by decide
  rw [isHex_eq, h0x]
  simp only [List.cons_append, List.nil_append, List.length_cons, List.take_succ_cons,
    List.take_zero, List.drop_succ_cons, List.drop_zero, Bool.and_eq_true, decide_eq_true_eq]
  refine ⟨⟨by omega, trivial⟩, ?_⟩
  simp [evenHexDigits, heven]
  exact hdig

/-- C2 at `h = "ab"`: `isHex "0xab"` is true. -/
theorem isHex_even_digits_witness :
    lit "ab" ≠ [] ∧ (lit "ab").length % 2 = 0 ∧ (∀ c ∈ lit "ab", isHexDigit c = true)
      ∧ isHex (lit "0x" ++ lit "ab") = true :=
  ⟨by decide, by decide, by decide,
    isHex_even_digits (lit "ab") (by decide) (by decide) (by decide)⟩

/-- C2 as stated fails at `h = "a"`: a non-empty string of hexadecimal digits
for which `isHex ("0x" ++ h)` is false. -/
theorem isHex_odd_digits_false :
    lit "a" ≠ [] ∧ (∀ c ∈ lit "a", isHexDigit c = true)
      ∧ isHex (lit "0x" ++ lit "a") = false := by
  decide

/-- C3: for every string `s`, `StripHex s` is `s` without its first two
characters when `isHex s` is true and `s` itself when `isHex s` is false; so a
string that starts with `0x` and is not followed by a non-empty valid hex
string keeps its prefix, as do `0x` and `0xZZ`. -/
theorem StripHex_spec (s : Bytes) :
    (isHex s = true → StripHex s = s.drop 2)
    ∧ (isHex s = false → StripHex s = s)
    ∧ (s.take 2 = lit "0x" → (s.drop 2 = [] ∨ evenHexDigits (s.drop 2) = false) →
        StripHex s = s)
    ∧ StripHex (lit "0x") = lit "0x"
    ∧ StripHex (lit "0xZZ") = lit "0xZZ" := by
  refine ⟨?_, ?_, ?_, by decide, by decide⟩
  · intro h
    simp [StripHex, h]
  · intro h
    simp [StripHex, h]
  · intro hp hbad
    have hf : isHex s = false := by
      rw [isHex_eq]
      rcases hbad with hnil | hodd
      · have hlen : s.length ≤ 2 := by
          have := congrArg List.length hnil
          simp only [List.length_drop, List.length_nil] at this
          omega
        simp [Nat.not_lt.mpr hlen]
      · simp [hodd]
    simp [StripHex, hf]

/-- C3 at `s = "0xab"` (hex, stripped to `ab`), `s = "ab"` (not prefixed, kept)
and `s = "0xZZ"` (prefixed but not hex, kept). -/
theorem StripHex_spec_witness :
    StripHex (lit "0xab") = lit "ab"
    ∧ StripHex (lit "ab") = lit "ab"
    ∧ StripHex (lit "0xZZ") = lit "0xZZ" :=
  ⟨(StripHex_spec (lit "0xab")).1 (by decide),
    (StripHex_spec (lit "ab")).2.1 (by decide),
    (StripHex_spec (lit "0xZZ")).2.2.1 (by decide) (Or.inr (by decide))⟩

/-! ## The option commands -/

section CommandFacts

variable {Ctx Err OptionData : Type}

/-- C4: for every valid option address and every value `v` of `--sellto`,
`cmdOptionSellTx` does not stop with an error of its own: it returns what
`AppTx` returns for the Sell transaction with the decoded address, whose
`NewHolder` is `nil` when `v` is not valid hex and the decoded bytes of `v`
when it is. -/
theorem cmdOptionSellTx_buyer_optional (env : Env Ctx Err OptionData) (c : Ctx)
    (addr : Bytes)
    (haddr : DecodeString (StripHex (env.String c OptionAddrFlagName)) = .ok addr) :
    ∃ buyer : Slice,
      cmdOptionSellTx env c =
        (env.AppTx (env.Parent (env.Parent c)) (lit "options")
          (env.TxBytes (.sell
            { Addr := some addr
              NewHolder := buyer
              Price := [{ Denom := env.String c (lit "price-coin")
                          Amount := env.Int c (lit "price") }] }))).map .host
      ∧ (validHexValue (env.String c (lit "sellto")) = false → buyer = none)
      ∧ (validHexValue (env.String c (lit "sellto")) = true →
          ∃ b, DecodeString (hexDigitsOf (env.String c (lit "sellto"))) = .ok b
            ∧ buyer = some b) := by
  have hv := DecodeString_StripHex_isOk (env.String c (lit "sellto"))
  cases hd : DecodeString (StripHex (env.String c (lit "sellto"))) with
  | error e =>
    refine ⟨none, ?_, fun _ => rfl, ?_⟩
    · simp only [cmdOptionSellTx, haddr]
      rw [show OptionSellToFlagName = lit "sellto" from rfl, hd]
      rfl
    · intro hvalid
      rw [hd, hvalid] at hv
      exact absurd hv (by simp [Except.isOk, Except.toBool])
  | ok b =>
    refine ⟨some b, ?_, ?_, ?_⟩
    · simp only [cmdOptionSellTx, haddr]
      rw [show OptionSellToFlagName = lit "sellto" from rfl, hd]
      rfl
    · intro hinvalid
      rw [hd, hinvalid] at hv
      exact absurd hv (by simp [Except.isOk, Except.toBool])
    · intro hvalid
      rw [← StripHex_of_valid _ hvalid]
      exact ⟨b, hd, rfl⟩

/-- C5: for every address, `getOption` queries the key made of the bytes of
`options/` followed by the address; it returns an error when the query fails,
when the value under the key is empty, and when the value does not parse; it
returns a record exactly when the value is non-empty and parses, and then the
parsed record. -/
theorem getOption_spec (env : Env Ctx Err OptionData) (tmAddr address : Bytes) :
    (∀ e, env.Query tmAddr (lit "options/" ++ address) = .error e →
        getOption env tmAddr address = .error (.host e))
    ∧ (∀ r, env.Query tmAddr (lit "options/" ++ address) = .ok r → r.Value = [] →
        getOption env tmAddr address = .error (.emptyOption address))
    ∧ (∀ r e, env.Query tmAddr (lit "options/" ++ address) = .ok r → r.Value ≠ [] →
        env.ParseData r.Value = .error e →
        getOption env tmAddr address = .error (.readOption r.Value e))
    ∧ (∀ opt, getOption env tmAddr address = .ok opt ↔
        ∃ r, env.Query tmAddr (lit "options/" ++ address) = .ok r ∧ r.Value ≠ []
          ∧ env.ParseData r.Value = .ok opt) := by
  have hkey : OptionName ++ lit "/" ++ address = lit "options/" ++ address := rfl
  unfold getOption
  simp only [hkey]
  cases hq : env.Query tmAddr (lit "options/" ++ address) with
  | error e0 =>
    refine ⟨?_, ?_, ?_, ?_⟩
    · intro e he
      cases he
      rfl
    · intro r hr
      cases hr
    · intro r e hr
      cases hr
    · intro opt
      simp
  | ok r0 =>
    refine ⟨?_, ?_, ?_, ?_⟩
    · intro e he
      cases he
    · intro r hr hnil
      cases hr
      simp [hnil]
    · intro r e hr hne hp
      cases hr
      simp [hne, hp]
    · intro opt
      by_cases hnil : r0.Value = []
      · simp [hnil]
      · cases hp : env.ParseData r0.Value <;> simp [hnil, hp]

/-- C6, as the code has it: for every trade amount, those that are not
positive and the default `0` of the flag included, `cmdOptionCreateTx` makes
no check of the amount: it hands the Create transaction carrying that amount to
`AppTx` and returns what `AppTx` returns, an error exactly when `AppTx` gives
one. -/
theorem cmdOptionCreateTx_submits (env : Env Ctx Err OptionData) (c : Ctx) :
    cmdOptionCreateTx env c =
        (env.AppTx (env.Parent (env.Parent c)) (lit "options")
          (env.TxBytes (.create
            { Expiration := env.Uint64 c env.EscrowExpireFlagName
              Trade := [{ Denom := env.String c (lit "trade-coin")
                          Amount := env.Int c (lit "trade") }] }))).map .host
    ∧ (cmdOptionCreateTx env c = none ↔
        env.AppTx (env.Parent (env.Parent c)) (lit "options")
          (env.TxBytes (.create
            { Expiration := env.Uint64 c env.EscrowExpireFlagName
              Trade := [{ Denom := env.String c (lit "trade-coin")
                          Amount := env.Int c (lit "trade") }] })) = none) := by
  refine ⟨rfl, ?_⟩
  unfold cmdOptionCreateTx
  simp only [Option.map_eq_none']
  exact Iff.rfl

end CommandFacts

/-! ## The commands on the concrete hosts -/

/-- C4 at `--option 0xab --sellto 0xZZ`: the address decodes to the byte `ab`
and the command goes through to `AppTx`. -/
theorem cmdOptionSellTx_buyer_optional_witness :
    DecodeString (StripHex (sampleEnv.String sellFlags OptionAddrFlagName)) = .ok [171]
    ∧ ∃ buyer : Slice,
      cmdOptionSellTx sampleEnv sellFlags =
        (sampleEnv.AppTx (sampleEnv.Parent (sampleEnv.Parent sellFlags)) (lit "options")
          (sampleEnv.TxBytes (.sell
            { Addr := some [171]
              NewHolder := buyer
              Price := [{ Denom := sampleEnv.String sellFlags (lit "price-coin")
                          Amount := sampleEnv.Int sellFlags (lit "price") }] }))).map .host
      ∧ (validHexValue (sampleEnv.String sellFlags (lit "sellto")) = false → buyer = none)
      ∧ (validHexValue (sampleEnv.String sellFlags (lit "sellto")) = true →
          ∃ b, DecodeString (hexDigitsOf (sampleEnv.String sellFlags (lit "sellto"))) = .ok b
            ∧ buyer = some b) :=
  ⟨by decide, cmdOptionSellTx_buyer_optional sampleEnv sellFlags [171] (by decide)⟩

/-- C5 on the sample host: the key `options/` `01` holds a record that parses,
`options/` `02` holds nothing, `options/` `03` holds bytes that do not parse,
and the query for `options/` `04` fails. -/
theorem getOption_spec_witness :
    getOption sampleEnv [] [1] = .ok 7
    ∧ getOption sampleEnv [] [2] = .error (.emptyOption [2])
    ∧ getOption sampleEnv [] [3] = .error (.readOption [9, 9] (lit "malformed record"))
    ∧ getOption sampleEnv [] [4] = .error (.host (lit "no such key")) :=
  ⟨((getOption_spec sampleEnv [] [1]).2.2.2 7).mpr
      ⟨{ Value := [7] }, by decide, by decide, by decide⟩,
    (getOption_spec sampleEnv [] [2]).2.1 { Value := [] } (by decide) (by decide),
    (getOption_spec sampleEnv [] [3]).2.2.1 { Value := [9, 9] } (lit "malformed record")
      (by decide) (by decide) (by decide),
    (getOption_spec sampleEnv [] [4]).1 (lit "no such key") (by decide)⟩

/-- C6 as stated fails with no flag given: the trade amount is the default `0`,
yet on a host that accepts the submission `cmdOptionCreateTx` returns no
error, and the host is handed the application name `options` with the Create
transaction of amount `0` in coin `blank`. -/
theorem cmdOptionCreateTx_zero_accepted :
    sampleEnv.Int noFlags (lit "trade") = 0
    ∧ cmdOptionCreateTx sampleEnv noFlags = none
    ∧ cmdOptionCreateTx echoEnv noFlags
        = some (.host (lit "options", 1 :: 0 :: lit "blank")) := by
  decide

end Trackomatron
